import Mathlib

/-!
Verification development for the tiered file I/O layer of an embedded
columnar storage engine (write-through cache, parquet metadata loader,
byte-range merger and fetcher).

Each definition is a shallow embedding of one function of the source tree;
the doc comment of each definition names the source file it embeds.
Machine integers (`usize`, `u64`) are modelled as `Nat`; Rust's
`checked_sub(b).map(p).unwrap_or(true)` on unsigned integers coincides with
the same predicate on truncated `Nat` subtraction, which is noted where used.
-/

/-- A byte range `[start, stop)`. Embeds Rust's `Range<usize>` / `Range<u64>`
(`end` is a Lean keyword, so the second field is called `stop`). -/
structure Rg where
  start : Nat
  stop : Nat
deriving DecidableEq, Repr

/-- Comparison of ranges by their `start` field, the sort key used by
`merge_ranges` (`ranges.sort_unstable_by_key(|range| range.start)` in
`src/mito2/src/sst/parquet/helper.rs`). -/
def leStart (a b : Rg) : Prop := a.start ≤ b.start

instance : DecidableRel leStart := fun a b => Nat.decLe a.start b.start

instance : IsTotal Rg leStart := ⟨fun a b => Nat.le_total a.start b.start⟩

instance : IsTrans Rg leStart := ⟨fun _ _ _ hab hbc => Nat.le_trans hab hbc⟩

/-- Sorting by `start` ascending. The source uses an unstable sort whose tie
order is unobservable in the proved properties; insertion sort is one
admissible instance. -/
def sortRanges (l : List Rg) : List Rg := List.insertionSort leStart l

/-- The inner `while` loop of `merge_ranges`
(`src/mito2/src/sst/parquet/helper.rs` lines 200-210): starting from the
current window `[wstart, range_end)`, absorb successive candidates while
`range_end - wstart <= max_range_size` and
`candidate.start.checked_sub(range_end).map(|d| d <= coalesce).unwrap_or(true)`.
On `Nat`, truncated subtraction makes `c.start - range_end ≤ coalesce`
exactly that condition (when `c.start < range_end` the `checked_sub` is
`None` and the Rust condition is `true`; the truncated difference is `0`,
also accepted). Returns the final `range_end` together with the unconsumed
suffix of the candidate list (the suffix starting at the final `end_idx`). -/
def gather (coalesce maxsz wstart : Nat) : Nat → List Rg → Nat × List Rg
  | range_end, [] => (range_end, [])
  | range_end, c :: rest =>
    if range_end - wstart ≤ maxsz ∧ c.start - range_end ≤ coalesce then
      gather coalesce maxsz wstart (max range_end c.stop) rest
    else
      (range_end, c :: rest)

/-- The outer `while` loop of `merge_ranges`: each iteration takes the head of
the remaining (sorted) list as the new window start (`ranges[start_idx]`),
runs the inner loop, emits `start..range_end` and continues from the
unconsumed suffix (`start_idx = end_idx`). A fuel argument makes the
recursion structural; `fuel ≥ length` is always sufficient because every
iteration consumes at least the head. -/
def mergeLoop (coalesce maxsz : Nat) : Nat → List Rg → List Rg
  | _, [] => []
  | 0, _ :: _ => []
  | fuel + 1, r :: rest =>
    let g := gather coalesce maxsz r.start r.stop rest
    ⟨r.start, g.1⟩ :: mergeLoop coalesce maxsz fuel g.2

/-- Embeds `merge_ranges` (`src/mito2/src/sst/parquet/helper.rs` lines
181-221): sort by `start`, then greedily coalesce windows. -/
def mergeRanges (raw_ranges : List Rg) (coalesce max_range_size : Nat) : List Rg :=
  if raw_ranges.isEmpty then []
  else
    let ranges := sortRanges raw_ranges
    mergeLoop coalesce max_range_size ranges.length ranges

/-- Byte `x` lies inside some range of `l`. -/
def covers (l : List Rg) (x : Nat) : Prop := ∃ r ∈ l, r.start ≤ x ∧ x < r.stop

instance (l : List Rg) (x : Nat) : Decidable (covers l x) :=
  List.decidableBEx _ l

-- Sanity checks against the unit tests of `merge_ranges` in the source.
example : mergeRanges [] 0 0 = [] := by decide
example : mergeRanges [⟨0, 3⟩] 0 0 = [⟨0, 3⟩] := by decide
example : mergeRanges [⟨0, 2⟩, ⟨3, 5⟩] 0 0 = [⟨0, 2⟩, ⟨3, 5⟩] := by decide
example : mergeRanges [⟨0, 1⟩, ⟨1, 2⟩] 0 1 = [⟨0, 2⟩] := by decide
example : mergeRanges [⟨0, 1⟩, ⟨2, 72⟩] 1 4 = [⟨0, 72⟩] := by decide
example : mergeRanges [⟨0, 1⟩, ⟨56, 72⟩, ⟨73, 75⟩] 1 512 = [⟨0, 1⟩, ⟨56, 75⟩] := by decide
example : mergeRanges [⟨0, 1⟩, ⟨56, 72⟩, ⟨73, 75⟩] 1 8 = [⟨0, 1⟩, ⟨56, 72⟩, ⟨73, 75⟩] := by
  decide
example : mergeRanges [⟨0, 1⟩, ⟨5, 6⟩, ⟨7, 9⟩, ⟨2, 3⟩, ⟨4, 6⟩] 1 10 = [⟨0, 9⟩] := by decide
example : mergeRanges [⟨0, 1⟩, ⟨5, 6⟩, ⟨7, 9⟩, ⟨2, 3⟩, ⟨4, 6⟩] 1 1 =
    [⟨0, 3⟩, ⟨4, 6⟩, ⟨5, 9⟩] := by decide
example : mergeRanges [⟨0, 1⟩, ⟨6, 7⟩, ⟨8, 9⟩, ⟨10, 14⟩, ⟨9, 10⟩] 4 10 =
    [⟨0, 1⟩, ⟨6, 14⟩] := by decide
example : mergeRanges [⟨1, 3⟩, ⟨2, 4⟩, ⟨3, 5⟩, ⟨10, 14⟩] 0 10 = [⟨1, 5⟩, ⟨10, 14⟩] := by decide

/-! ### Lemmas about the inner loop of `merge_ranges` -/

/-- The window end never decreases during the inner loop. -/
theorem gather_fst_ge (c m w : Nat) (l : List Rg) : ∀ e : Nat, e ≤ (gather c m w e l).1 := by
  induction l with
  | nil => intro e; exact le_refl e
  | cons r rest ih =>
    intro e
    simp only [gather]
    split
    · exact le_trans (le_max_left e r.stop) (ih (max e r.stop))
    · exact le_refl e

/-- The unconsumed suffix returned by the inner loop is a sublist of the input. -/
theorem gather_snd_sublist (c m w : Nat) (l : List Rg) :
    ∀ e : Nat, (gather c m w e l).2.Sublist l := by
  induction l with
  | nil => intro e; simp [gather]
  | cons r rest ih =>
    intro e
    simp only [gather]
    split
    · exact ((ih _).trans (List.sublist_cons_self r rest))
    · exact List.Sublist.refl _

/-- Every input candidate is either left unconsumed or its end is dominated by
the final window end. -/
theorem gather_mem (c m w : Nat) (l : List Rg) :
    ∀ e : Nat, ∀ r' ∈ l, r' ∈ (gather c m w e l).2 ∨ r'.stop ≤ (gather c m w e l).1 := by
  induction l with
  | nil => intro e r' h; cases h
  | cons r rest ih =>
    intro e r' hmem
    simp only [gather]
    split
    · rcases List.mem_cons.mp hmem with rfl | hr
      · exact Or.inr (le_trans (le_max_right e r'.stop) (gather_fst_ge c m w rest _))
      · exact ih _ r' hr
    · exact Or.inl hmem

/-- When the inner loop leaves a nonempty suffix, its head failed the
absorption test against the final window end. -/
theorem gather_stop (c m w : Nat) (l : List Rg) :
    ∀ (e : Nat) (c' : Rg) (tl : List Rg), (gather c m w e l).2 = c' :: tl →
      ¬((gather c m w e l).1 - w ≤ m ∧ c'.start - (gather c m w e l).1 ≤ c) := by
  induction l with
  | nil => intro e c' tl h; simp [gather] at h
  | cons r rest ih =>
    intro e c' tl h
    revert h
    simp only [gather]
    split
    · exact fun h => ih _ c' tl h
    · rename_i hcond
      intro h
      injection h with h1 h2
      subst h1
      exact hcond

theorem sortRanges_perm (l : List Rg) : (sortRanges l).Perm l :=
  List.perm_insertionSort leStart l

theorem sortRanges_sorted (l : List Rg) : List.Sorted leStart (sortRanges l) :=
  List.sorted_insertionSort leStart l

/-- Every byte covered by the (sorted) input is covered by the merge loop's
output, provided the fuel dominates the input length. -/
theorem mergeLoop_covers (c m : Nat) :
    ∀ (fuel : Nat) (l : List Rg), l.length ≤ fuel → List.Sorted leStart l →
      ∀ x, covers l x → covers (mergeLoop c m fuel l) x := by
  intro fuel
  induction fuel with
  | zero =>
    intro l hlen _ x hcov
    obtain ⟨r, hr, -, -⟩ := hcov
    rw [List.length_eq_zero.mp (Nat.le_zero.mp hlen)] at hr
    cases hr
  | succ fuel ih =>
    intro l hlen hsort x hcov
    match l with
    | [] =>
      obtain ⟨r, hr, -, -⟩ := hcov
      cases hr
    | r :: rest =>
      obtain ⟨r', hr', hx1, hx2⟩ := hcov
      simp only [mergeLoop]
      rcases List.mem_cons.mp hr' with rfl | hmem
      · exact ⟨⟨r'.start, (gather c m r'.start r'.stop rest).1⟩, List.mem_cons_self _ _,
          hx1, lt_of_lt_of_le hx2 (gather_fst_ge c m r'.start rest r'.stop)⟩
      · rcases gather_mem c m r.start rest r.stop r' hmem with hin | hstop
        · have hlen2 : (gather c m r.start r.stop rest).2.length ≤ fuel :=
            le_trans (List.Sublist.length_le (gather_snd_sublist c m r.start rest r.stop))
              (Nat.le_of_succ_le_succ (by simpa using hlen))
          have hsort2 : List.Sorted leStart (gather c m r.start r.stop rest).2 :=
            List.Pairwise.sublist (gather_snd_sublist c m r.start rest r.stop) hsort.of_cons
          obtain ⟨w, hw, h1, h2⟩ := ih _ hlen2 hsort2 x ⟨r', hin, hx1, hx2⟩
          exact ⟨w, List.mem_cons_of_mem _ hw, h1, h2⟩
        · exact ⟨⟨r.start, (gather c m r.start r.stop rest).1⟩, List.mem_cons_self _ _,
            le_trans (List.rel_of_sorted_cons hsort r' hmem) hx1,
            lt_of_lt_of_le hx2 hstop⟩

/-- Every start of an output window of the merge loop is the start of some
input range. -/
theorem mergeLoop_start_mem (c m : Nat) :
    ∀ (fuel : Nat) (l : List Rg), ∀ w ∈ mergeLoop c m fuel l, ∃ r ∈ l, w.start = r.start := by
  intro fuel
  induction fuel with
  | zero =>
    intro l w hw
    match l with
    | [] => cases hw
    | r :: rest => cases hw
  | succ fuel ih =>
    intro l w hw
    match l with
    | [] => cases hw
    | r :: rest =>
      simp only [mergeLoop] at hw
      rcases List.mem_cons.mp hw with rfl | hw2
      · exact ⟨r, List.mem_cons_self _ _, rfl⟩
      · obtain ⟨r', hr', he⟩ := ih _ w hw2
        exact ⟨r', List.mem_cons_of_mem _
          ((gather_snd_sublist c m r.start rest r.stop).mem hr'), he⟩

/-- The merge loop's output is sorted by start, and an output window whose span
is within `maxsz` ends at or before the start of every later window. -/
theorem mergeLoop_sorted_sep (c m : Nat) :
    ∀ (fuel : Nat) (l : List Rg), List.Sorted leStart l →
      List.Sorted leStart (mergeLoop c m fuel l)
      ∧ (mergeLoop c m fuel l).Pairwise (fun a b => a.stop - a.start ≤ m → a.stop ≤ b.start) := by
  intro fuel
  induction fuel with
  | zero =>
    intro l _
    match l with
    | [] => exact ⟨List.sorted_nil, List.Pairwise.nil⟩
    | r :: rest => exact ⟨List.sorted_nil, List.Pairwise.nil⟩
  | succ fuel ih =>
    intro l hsort
    match l with
    | [] => exact ⟨List.sorted_nil, List.Pairwise.nil⟩
    | r :: rest =>
      simp only [mergeLoop]
      have hsub : (gather c m r.start r.stop rest).2.Sublist rest :=
        gather_snd_sublist c m r.start rest r.stop
      have hsort2 : List.Sorted leStart (gather c m r.start r.stop rest).2 :=
        List.Pairwise.sublist hsub hsort.of_cons
      obtain ⟨ihs, ihp⟩ := ih _ hsort2
      constructor
      · refine List.Pairwise.cons ?_ ihs
        intro w hw
        obtain ⟨r', hr', he⟩ := mergeLoop_start_mem c m fuel _ w hw
        have : leStart r r' := List.rel_of_sorted_cons hsort r' (hsub.mem hr')
        show r.start ≤ w.start
        rw [he]
        exact this
      · refine List.Pairwise.cons ?_ ihp
        intro w hw hspan
        match hleft : (gather c m r.start r.stop rest).2 with
        | [] =>
          rw [hleft] at hw
          cases fuel <;> cases hw
        | c' :: tl =>
          have hfail := gather_stop c m r.start rest r.stop c' tl hleft
          have hgap : ¬(c'.start - (gather c m r.start r.stop rest).1 ≤ c) := by
            intro hgap
            exact hfail ⟨hspan, hgap⟩
          have hlt : (gather c m r.start r.stop rest).1 < c'.start := by omega
          obtain ⟨r', hr', he⟩ := mergeLoop_start_mem c m fuel _ w (hleft ▸ hw)
          have hcs : c'.start ≤ r'.start := by
            rw [hleft] at hsort2
            rcases List.mem_cons.mp hr' with rfl | hr2
            · exact le_refl _
            · exact List.rel_of_sorted_cons hsort2 r' hr2
          show (gather c m r.start r.stop rest).1 ≤ w.start
          rw [he]
          omega

/-- C2 counterexample: with a positive `coalesce_gap` the output of
`merge_ranges` covers bytes that no input range covers, so the output byte
coverage does not *equal* the input byte coverage. With input
`[0..1, 2..3]`, gap `1`, `max_span` `512`, the output is `[0..3]`, which
covers byte `1`, covered by no input range. -/
theorem merge_ranges_coverage_not_equal :
    mergeRanges [⟨0, 1⟩, ⟨2, 3⟩] 1 512 = [⟨0, 3⟩]
      ∧ covers (mergeRanges [⟨0, 1⟩, ⟨2, 3⟩] 1 512) 1
      ∧ ¬ covers [⟨0, 1⟩, ⟨2, 3⟩] 1
      ∧ 0 < 512 := by decide

/-- C2 (amended): for every finite list of ranges, every `coalesce_gap` and
every `max_span`, the byte coverage of the output of `merge_ranges` contains
the byte coverage of the union of the input ranges (the reverse inclusion
fails: coalescing may additionally cover bytes lying in gaps of size at most
`coalesce_gap`). -/
theorem merge_ranges_covers (raw : List Rg) (g m x : Nat) (h : covers raw x) :
    covers (mergeRanges raw g m) x := by
  obtain ⟨r, hr, hx1, hx2⟩ := h
  have hne : raw.isEmpty = false := by
    cases raw with
    | nil => cases hr
    | cons a as => rfl
  unfold mergeRanges
  rw [hne]
  simp only [Bool.false_eq_true, if_false]
  exact mergeLoop_covers g m _ _ (le_refl _) (sortRanges_sorted raw) x
    ⟨r, (sortRanges_perm raw).mem_iff.mpr hr, hx1, hx2⟩

/-- Witness for `merge_ranges_covers` at a concrete input. -/
theorem merge_ranges_covers_witness :
    covers [⟨0, 1⟩, ⟨5, 7⟩] 6 ∧ covers (mergeRanges [⟨0, 1⟩, ⟨5, 7⟩] 2 10) 6 :=
  ⟨by decide, merge_ranges_covers [⟨0, 1⟩, ⟨5, 7⟩] 2 10 6 (by decide)⟩

/-- C3 counterexample: the output of `merge_ranges` can contain two
overlapping ranges of which neither is a single input range of span
exceeding `max_span` passed through unchanged. With input
`[0..1, 1..10, 2..3]`, gap `0`, `max_span` `5`, the output is
`[0..10, 2..3]`: the two output ranges overlap, `0..10` is not an input
range, and `2..3` has span `1 ≤ 5`. -/
theorem merge_ranges_overlap_not_passthrough :
    mergeRanges [⟨0, 1⟩, ⟨1, 10⟩, ⟨2, 3⟩] 0 5 = [⟨0, 10⟩, ⟨2, 3⟩]
      ∧ (2 : Nat) < 10
      ∧ Rg.mk 0 10 ∉ ([⟨0, 1⟩, ⟨1, 10⟩, ⟨2, 3⟩] : List Rg)
      ∧ ¬ ((3 : Nat) - 2 > 5)
      ∧ 0 < 5 := by decide

/-- C3 (amended): for every finite list of ranges, every `coalesce_gap` and
every `max_span`, the output of `merge_ranges` is sorted by start, and every
output range whose own span is at most `max_span` ends at or before the start
of every later output range (so only an output range whose span exceeds
`max_span` — which need not be a single input range — can overlap later
output ranges). -/
theorem merge_ranges_sorted_sep (raw : List Rg) (g m : Nat) :
    List.Sorted leStart (mergeRanges raw g m)
      ∧ (mergeRanges raw g m).Pairwise
          (fun a b => a.stop - a.start ≤ m → a.stop ≤ b.start) := by
  unfold mergeRanges
  split
  · exact ⟨List.sorted_nil, List.Pairwise.nil⟩
  · exact mergeLoop_sorted_sep g m _ _ (sortRanges_sorted raw)

/-! ### C4: the absorption rule of `merge_ranges` -/

/-- Inner loop following the claim's wording: a candidate is absorbed iff the
gap test passes (overlapping or adjacent candidates always pass) and
*absorbing would keep* `window_end - window_start ≤ max_span`, with the new
window end recomputed as the maximum end seen so far. -/
def gatherClaimed (coalesce maxsz wstart : Nat) : Nat → List Rg → Nat × List Rg
  | wend, [] => (wend, [])
  | wend, cand :: rest =>
    if (cand.start ≤ wend ∨ cand.start - wend ≤ coalesce)
        ∧ max wend cand.stop - wstart ≤ maxsz then
      gatherClaimed coalesce maxsz wstart (max wend cand.stop) rest
    else
      (wend, cand :: rest)

/-- Merge loop built on the claimed absorption rule. -/
def mergeLoopClaimed (coalesce maxsz : Nat) : Nat → List Rg → List Rg
  | _, [] => []
  | 0, _ :: _ => []
  | fuel + 1, r :: rest =>
    let g := gatherClaimed coalesce maxsz r.start r.stop rest
    ⟨r.start, g.1⟩ :: mergeLoopClaimed coalesce maxsz fuel g.2

/-- Range merger following the claim's wording of the absorption rule. -/
def mergeRangesClaimed (raw_ranges : List Rg) (coalesce max_range_size : Nat) : List Rg :=
  if raw_ranges.isEmpty then []
  else
    let ranges := sortRanges raw_ranges
    mergeLoopClaimed coalesce max_range_size ranges.length ranges

/-- Inner loop following the amended wording: a candidate is absorbed iff the
gap test passes (overlapping or adjacent candidates always pass) and the
window's span *before* the absorption, `window_end - window_start`, is at
most `max_span`. -/
def gatherAmended (coalesce maxsz wstart : Nat) : Nat → List Rg → Nat × List Rg
  | wend, [] => (wend, [])
  | wend, cand :: rest =>
    if (cand.start ≤ wend ∨ cand.start - wend ≤ coalesce) ∧ wend - wstart ≤ maxsz then
      gatherAmended coalesce maxsz wstart (max wend cand.stop) rest
    else
      (wend, cand :: rest)

/-- Merge loop built on the amended absorption rule. -/
def mergeLoopAmended (coalesce maxsz : Nat) : Nat → List Rg → List Rg
  | _, [] => []
  | 0, _ :: _ => []
  | fuel + 1, r :: rest =>
    let g := gatherAmended coalesce maxsz r.start r.stop rest
    ⟨r.start, g.1⟩ :: mergeLoopAmended coalesce maxsz fuel g.2

/-- Range merger following the amended wording of the absorption rule. -/
def mergeRangesAmended (raw_ranges : List Rg) (coalesce max_range_size : Nat) : List Rg :=
  if raw_ranges.isEmpty then []
  else
    let ranges := sortRanges raw_ranges
    mergeLoopAmended coalesce max_range_size ranges.length ranges

theorem gatherAmended_eq (c m w : Nat) (l : List Rg) :
    ∀ e : Nat, gatherAmended c m w e l = gather c m w e l := by
  induction l with
  | nil => intro e; rfl
  | cons cand rest ih =>
    intro e
    simp only [gatherAmended, gather]
    by_cases h : e - w ≤ m ∧ cand.start - e ≤ c
    · rw [if_pos h, if_pos (show (cand.start ≤ e ∨ cand.start - e ≤ c) ∧ e - w ≤ m by omega)]
      exact ih _
    · rw [if_neg h, if_neg (show ¬((cand.start ≤ e ∨ cand.start - e ≤ c) ∧ e - w ≤ m) by omega)]

theorem mergeLoopAmended_eq (c m : Nat) :
    ∀ (fuel : Nat) (l : List Rg), mergeLoopAmended c m fuel l = mergeLoop c m fuel l := by
  intro fuel
  induction fuel with
  | zero =>
    intro l
    match l with
    | [] => rfl
    | r :: rest => rfl
  | succ fuel ih =>
    intro l
    match l with
    | [] => rfl
    | r :: rest =>
      simp only [mergeLoopAmended, mergeLoop, gatherAmended_eq]
      rw [ih]

/-- C4 counterexample: with input `[0..1, 2..72]`, gap `1`, `max_span` `4`,
the source's `merge_ranges` produces `[0..72]` (span 72 > 4, not a single
input range), while the claimed rule — absorb only if the span *after*
absorption stays within `max_span` — would produce `[0..1, 2..72]`. The span
test in the source compares the window span *before* absorbing, so absorbing
does not keep the span within `max_span`, and the claimed consequence (every
output range is an oversized input pass-through or has span at most
`max_span`) fails. This input is the source's own unit test
`merge_ranges(&[0..1, 2..72], 1, 4) = [0..72]`. -/
theorem merge_ranges_absorbs_past_max_span :
    mergeRanges [⟨0, 1⟩, ⟨2, 72⟩] 1 4 = [⟨0, 72⟩]
      ∧ mergeRangesClaimed [⟨0, 1⟩, ⟨2, 72⟩] 1 4 = [⟨0, 1⟩, ⟨2, 72⟩]
      ∧ ¬ ((72 : Nat) - 0 ≤ 4)
      ∧ Rg.mk 0 72 ∉ ([⟨0, 1⟩, ⟨2, 72⟩] : List Rg) := by decide

/-- C4 (amended): in `merge_ranges`, a candidate range is absorbed into the
current window iff the gap between the window's current end and the
candidate's start is at most `coalesce_gap` (overlapping or adjacent
candidates always pass the gap test) and the window's span *before* the
absorption, `window_end - window_start`, is at most `max_span`; consequently
an output range's span may exceed `max_span` even when it is not a single
input range. Formally: the merger defined by the amended absorption rule
computes exactly the source's `merge_ranges` on every input. -/
theorem merge_ranges_absorb_rule (raw : List Rg) (g m : Nat) :
    mergeRangesAmended raw g m = mergeRanges raw g m := by
  unfold mergeRangesAmended mergeRanges
  split
  · rfl
  · exact mergeLoopAmended_eq g m _ _

/-! ### Metadata loader (`src/mito2/src/sst/parquet/metadata.rs`) -/

/-- Fixed parquet footer size: 4-byte metadata length plus 4-byte magic. -/
def FOOTER_SIZE : Nat := 8

/-- The estimated size of footer plus metadata read speculatively from the end
of the file (`DEFAULT_PREFETCH_SIZE` in the source). -/
def DEFAULT_PREFETCH_SIZE : Nat := 64 * 1024

/-- Operations a load issues against the object store. -/
inductive Op where
  | stat : Op
  | rangeRead (start stop : Nat) : Op
deriving DecidableEq, Repr

/-- Discriminator for range-read operations. -/
def Op.isRead : Op → Bool
  | .stat => false
  | .rangeRead _ _ => true

/-- Errors of the loader: transport errors from the object store (`OpenDalSnafu`)
and `InvalidParquetSnafu` format errors carrying the file path and a reason. -/
inductive LoadErr where
  | openDal : LoadErr
  | invalidParquet (file reason : String) : LoadErr
deriving DecidableEq, Repr

/-- The external object store as the loader sees it: a reported content length
(returned by `stat`) and a byte-range read returning the bytes of `[start, stop)`
or a transport error (`none`). Bytes are `Nat`s. -/
structure PStore where
  size : Nat
  read : Nat → Nat → Option (List Nat)

/-- The parquet magic bytes "PAR1". -/
def PARQUET_MAGIC : List Nat := [80, 65, 82, 49]

/-- Little-endian 32-bit value of a 4-byte list. -/
def le_u32 (bs : List Nat) : Nat :=
  match bs with
  | [b0, b1, b2, b3] => b0 + b1 * 256 + b2 * 65536 + b3 * 16777216
  | _ => 0

/-- The parquet crate's `decode_footer`, an external collaborator: an 8-byte
footer decodes to the metadata length iff its last 4 bytes are the magic
(spec section 6: a magic value and a 4-byte little-endian metadata length). -/
def decodeFooter (footer : List Nat) : Option Nat :=
  if footer.length = 8 ∧ footer.drop 4 = PARQUET_MAGIC then some (le_u32 (footer.take 4))
  else none

/-- Wraps the external `decode_metadata` outcome the way `load` does: a decode
failure becomes `InvalidParquet` with reason "failed to decode metadata". -/
def decodeResult (path : String) (dec : List Nat → Option (List Nat)) (bytes : List Nat) :
    Except LoadErr (List Nat) :=
  match dec bytes with
  | none => .error (.invalidParquet path "failed to decode metadata")
  | some m => .ok m

/-- Embeds `MetadataLoader::load` after the file size has been resolved
(`metadata.rs` lines 81-148). `read` is the store's range read, `dec` the
external `decode_metadata`. Returns the result together with the list of
operations issued against the store, in order. -/
def loadWithSize (read : Nat → Nat → Option (List Nat)) (path : String) (file_size : Nat)
    (dec : List Nat → Option (List Nat)) : Except LoadErr (List Nat) × List Op :=
  if file_size < FOOTER_SIZE then
    (.error (.invalidParquet path "file size is smaller than footer size"), [])
  else
    let prefetch_size := min DEFAULT_PREFETCH_SIZE file_size
    match read (file_size - prefetch_size) file_size with
    | none => (.error .openDal, [.rangeRead (file_size - prefetch_size) file_size])
    | some buffer =>
      let buffer_len := buffer.length
      match decodeFooter (buffer.drop (buffer_len - FOOTER_SIZE)) with
      | none =>
        (.error (.invalidParquet path "failed to decode footer"),
         [.rangeRead (file_size - prefetch_size) file_size])
      | some metadata_len =>
        if metadata_len + FOOTER_SIZE > file_size then
          (.error (.invalidParquet path
             "the sum of Metadata length and Footer size is larger than file size"),
           [.rangeRead (file_size - prefetch_size) file_size])
        else
          let footer_len := metadata_len + FOOTER_SIZE
          if footer_len ≤ buffer_len then
            (decodeResult path dec (buffer.drop (buffer_len - footer_len)),
             [.rangeRead (file_size - prefetch_size) file_size])
          else
            match read (file_size - footer_len) (file_size - buffer_len) with
            | none =>
              (.error .openDal,
               [.rangeRead (file_size - prefetch_size) file_size,
                .rangeRead (file_size - footer_len) (file_size - buffer_len)])
            | some data =>
              (decodeResult path dec (data ++ buffer),
               [.rangeRead (file_size - prefetch_size) file_size,
                .rangeRead (file_size - footer_len) (file_size - buffer_len)])

/-- Embeds `MetadataLoader::load` (`metadata.rs` lines 69-148): the file size is
the caller-supplied hint if present, otherwise one `stat` is issued and its
content length used. -/
def load (store : PStore) (path : String) (file_size? : Option Nat)
    (dec : List Nat → Option (List Nat)) : Except LoadErr (List Nat) × List Op :=
  match file_size? with
  | some n => loadWithSize store.read path n dec
  | none =>
    let r := loadWithSize store.read path store.size dec
    (r.1, Op.stat :: r.2)

/-- The file size `load` resolves: the hint when present, else the stat size. -/
def resolvedSize (store : PStore) (file_size? : Option Nat) : Nat :=
  file_size?.getD store.size

/-- A load with a resolved size issues no stat. -/
theorem stat_not_mem_loadWithSize (read : Nat → Nat → Option (List Nat)) (path : String)
    (n : Nat) (dec : List Nat → Option (List Nat)) :
    Op.stat ∉ (loadWithSize read path n dec).2 := by
  unfold loadWithSize
  dsimp only
  split
  · simp
  · split
    · simp
    · split
      · simp
      · split
        · simp
        · split
          · simp
          · split <;> simp

/-- The result of `load`, and its range reads, are those of `loadWithSize` at
the resolved size (a hint-less load merely puts one stat in front). -/
theorem load_eq_loadWithSize (store : PStore) (path : String) (hint : Option Nat)
    (dec : List Nat → Option (List Nat)) :
    (load store path hint dec).1
        = (loadWithSize store.read path (resolvedSize store hint) dec).1
    ∧ (load store path hint dec).2.filter Op.isRead
        = (loadWithSize store.read path (resolvedSize store hint) dec).2.filter Op.isRead := by
  cases hint with
  | some n => exact ⟨rfl, rfl⟩
  | none =>
    refine ⟨rfl, ?_⟩
    simp [load, resolvedSize, List.filter_cons, Op.isRead]

/-- Range reads of a resolved-size load: never more than two. -/
theorem loadWithSize_read_count (read : Nat → Nat → Option (List Nat)) (path : String)
    (n : Nat) (dec : List Nat → Option (List Nat)) :
    ((loadWithSize read path n dec).2.filter Op.isRead).length ≤ 2 := by
  unfold loadWithSize
  dsimp only
  split
  · simp
  · split
    · simp [Op.isRead]
    · split
      · simp [Op.isRead]
      · split
        · simp [Op.isRead]
        · split
          · simp [Op.isRead]
          · split <;> simp [Op.isRead]

/-- Fast path of the loader: when the whole metadata region fits in the
prefetched window, the load is one read and decodes from the window's tail. -/
theorem loadWithSize_fast (read : Nat → Nat → Option (List Nat)) (path : String)
    (dec : List Nat → Option (List Nat)) (n w L : Nat) (buf : List Nat)
    (hw : w = min DEFAULT_PREFETCH_SIZE n)
    (hr : read (n - w) n = some buf)
    (hbl : buf.length = w)
    (hfoot : decodeFooter (buf.drop (w - FOOTER_SIZE)) = some L)
    (hLn : L + FOOTER_SIZE ≤ n)
    (hLw : L + FOOTER_SIZE ≤ w) :
    loadWithSize read path n dec
      = (decodeResult path dec (buf.drop (w - (L + FOOTER_SIZE))),
         [Op.rangeRead (n - w) n]) := by
  have h8 : ¬ (n < FOOTER_SIZE) := by
    have : (8 : Nat) ≤ L + FOOTER_SIZE := by unfold FOOTER_SIZE; omega
    omega
  subst hw
  unfold loadWithSize
  dsimp only
  rw [if_neg h8, hr]
  dsimp only
  rw [hbl, hfoot]
  dsimp only
  rw [if_neg (show ¬ (L + FOOTER_SIZE > n) by omega), if_pos hLw]

/-- Slow path of the loader: when the metadata region exceeds the prefetched
window, the load is exactly two reads, the second covering the missing prefix
`[n - (L + FOOTER_SIZE), n - w)`, concatenated before the window for decoding. -/
theorem loadWithSize_slow (read : Nat → Nat → Option (List Nat)) (path : String)
    (dec : List Nat → Option (List Nat)) (n w L : Nat) (buf : List Nat)
    (hw : w = min DEFAULT_PREFETCH_SIZE n)
    (hr : read (n - w) n = some buf)
    (hbl : buf.length = w)
    (hfoot : decodeFooter (buf.drop (w - FOOTER_SIZE)) = some L)
    (hLn : L + FOOTER_SIZE ≤ n)
    (hLw : w < L + FOOTER_SIZE) :
    loadWithSize read path n dec
      = ((match read (n - (L + FOOTER_SIZE)) (n - w) with
          | none => Except.error LoadErr.openDal
          | some data => decodeResult path dec (data ++ buf)),
         [Op.rangeRead (n - w) n, Op.rangeRead (n - (L + FOOTER_SIZE)) (n - w)]) := by
  have h8 : ¬ (n < FOOTER_SIZE) := by
    have : (8 : Nat) ≤ L + FOOTER_SIZE := by unfold FOOTER_SIZE; omega
    omega
  subst hw
  unfold loadWithSize
  dsimp only
  rw [if_neg h8, hr]
  dsimp only
  rw [hbl, hfoot]
  dsimp only
  rw [if_neg (show ¬ (L + FOOTER_SIZE > n) by omega),
    if_neg (show ¬ (L + FOOTER_SIZE ≤ min DEFAULT_PREFETCH_SIZE n) by omega)]
  cases read (n - (L + FOOTER_SIZE)) (n - min DEFAULT_PREFETCH_SIZE n) <;> rfl

/-- C6: if the resolved file size is smaller than the 8-byte footer,
`MetadataLoader::load` fails with `InvalidParquet` carrying the file path and
issues zero range reads — only the size resolution, a single stat when no
size hint was supplied. -/
theorem load_undersized (store : PStore) (path : String) (hint : Option Nat)
    (dec : List Nat → Option (List Nat)) (h : resolvedSize store hint < FOOTER_SIZE) :
    (load store path hint dec).1
        = .error (.invalidParquet path "file size is smaller than footer size")
    ∧ (load store path hint dec).2 = if hint.isSome then [] else [Op.stat] := by
  cases hint with
  | some n =>
    have hn : n < FOOTER_SIZE := h
    simp [load, loadWithSize, hn]
  | none =>
    have hn : store.size < FOOTER_SIZE := h
    simp [load, loadWithSize, hn]

/-- Witness for `load_undersized` on a 3-byte file with no size hint. -/
theorem load_undersized_witness :
    resolvedSize ⟨3, fun _ _ => none⟩ none < FOOTER_SIZE
    ∧ (load ⟨3, fun _ _ => none⟩ "short.parquet" none some).1
        = .error (.invalidParquet "short.parquet" "file size is smaller than footer size")
    ∧ (load ⟨3, fun _ _ => none⟩ "short.parquet" none some).2
        = if (none : Option Nat).isSome then [] else [Op.stat] :=
  ⟨by decide, (load_undersized ⟨3, fun _ _ => none⟩ "short.parquet" none some (by decide)).1,
   (load_undersized ⟨3, fun _ _ => none⟩ "short.parquet" none some (by decide)).2⟩

/-- C10: when a caller-supplied file-size hint is present, `load` issues no
stat, and its entire behaviour (result and issued operations) is a function
of the hint and the store's range-read behaviour alone — two stores with the
same reads but different actual sizes are indistinguishable, so the hint is
never cross-checked against the store's actual object size. -/
theorem load_hint_no_stat :
    (∀ (s1 s2 : PStore) (path : String) (n : Nat) (dec : List Nat → Option (List Nat)),
        s1.read = s2.read → load s1 path (some n) dec = load s2 path (some n) dec)
    ∧ ∀ (store : PStore) (path : String) (n : Nat) (dec : List Nat → Option (List Nat)),
        Op.stat ∉ (load store path (some n) dec).2 := by
  constructor
  · intro s1 s2 path n dec h
    show loadWithSize s1.read path n dec = loadWithSize s2.read path n dec
    rw [h]
  · intro store path n dec
    exact stat_not_mem_loadWithSize store.read path n dec

/-- Witness for `load_hint_no_stat`: stores of size 11 and 999 with the same
reads are indistinguishable under a hint of 20. -/
theorem load_hint_no_stat_witness :
    (PStore.mk 11 (fun _ _ => none)).read = (PStore.mk 999 (fun _ _ => none)).read
    ∧ load ⟨11, fun _ _ => none⟩ "f.parquet" (some 20) some
        = load ⟨999, fun _ _ => none⟩ "f.parquet" (some 20) some
    ∧ Op.stat ∉ (load ⟨11, fun _ _ => none⟩ "f.parquet" (some 20) some).2 :=
  ⟨rfl, load_hint_no_stat.1 _ _ "f.parquet" 20 some rfl,
   load_hint_no_stat.2 _ "f.parquet" 20 some⟩

/-- C5: `MetadataLoader::load` never issues more than two range reads on any
input; on an accepted file (valid footer at the end of the honest prefetch
window of size `min(64 KiB, file_size)`, and metadata region of size
`metadata_length + footer_size` not exceeding the file size) it issues
exactly one range read when the metadata region fits inside the window, and
exactly two otherwise, the second covering exactly the missing prefix
`[file_size - (metadata_length + footer_size), file_size - window_size)`
and being concatenated before the first window before decoding. -/
theorem load_read_trips :
    (∀ (store : PStore) (path : String) (hint : Option Nat)
        (dec : List Nat → Option (List Nat)),
        ((load store path hint dec).2.filter Op.isRead).length ≤ 2)
    ∧ (∀ (store : PStore) (path : String) (hint : Option Nat)
          (dec : List Nat → Option (List Nat)) (n w L : Nat) (buf : List Nat),
        n = resolvedSize store hint →
        w = min DEFAULT_PREFETCH_SIZE n →
        store.read (n - w) n = some buf →
        buf.length = w →
        decodeFooter (buf.drop (w - FOOTER_SIZE)) = some L →
        L + FOOTER_SIZE ≤ n →
        L + FOOTER_SIZE ≤ w →
          (load store path hint dec).2.filter Op.isRead = [Op.rangeRead (n - w) n]
          ∧ (load store path hint dec).1
              = decodeResult path dec (buf.drop (w - (L + FOOTER_SIZE))))
    ∧ ∀ (store : PStore) (path : String) (hint : Option Nat)
          (dec : List Nat → Option (List Nat)) (n w L : Nat) (buf : List Nat),
        n = resolvedSize store hint →
        w = min DEFAULT_PREFETCH_SIZE n →
        store.read (n - w) n = some buf →
        buf.length = w →
        decodeFooter (buf.drop (w - FOOTER_SIZE)) = some L →
        L + FOOTER_SIZE ≤ n →
        w < L + FOOTER_SIZE →
          (load store path hint dec).2.filter Op.isRead
              = [Op.rangeRead (n - w) n, Op.rangeRead (n - (L + FOOTER_SIZE)) (n - w)]
          ∧ ∀ d2 : List Nat, store.read (n - (L + FOOTER_SIZE)) (n - w) = some d2 →
              (load store path hint dec).1 = decodeResult path dec (d2 ++ buf) := by
  refine ⟨?_, ?_, ?_⟩
  · intro store path hint dec
    rw [(load_eq_loadWithSize store path hint dec).2]
    exact loadWithSize_read_count store.read path _ dec
  · intro store path hint dec n w L buf hn hw hr hbl hfoot hLn hLw
    obtain ⟨h1, h2⟩ := load_eq_loadWithSize store path hint dec
    rw [← hn] at h1 h2
    have hfast := loadWithSize_fast store.read path dec n w L buf hw hr hbl hfoot hLn hLw
    constructor
    · rw [h2, hfast]
      simp [Op.isRead]
    · rw [h1, hfast]
  · intro store path hint dec n w L buf hn hw hr hbl hfoot hLn hLw
    obtain ⟨h1, h2⟩ := load_eq_loadWithSize store path hint dec
    rw [← hn] at h1 h2
    have hslow := loadWithSize_slow store.read path dec n w L buf hw hr hbl hfoot hLn hLw
    constructor
    · rw [h2, hslow]
      simp [Op.isRead]
    · intro d2 hd2
      rw [h1, hslow]
      dsimp only
      rw [hd2]

/-- Concrete store for the loader's fast path: a 20-byte file whose metadata
region (5 + 8 bytes) fits inside the prefetch window. -/
def fastBuf : List Nat := [0, 0, 0, 0, 0, 0, 0, 0, 0, 0, 0, 0, 5, 0, 0, 0, 80, 65, 82, 49]

/-- Store serving `fastBuf` for the single expected range read. -/
def fastStore : PStore := ⟨20, fun a b => if a = 0 ∧ b = 20 then some fastBuf else none⟩

/-- Concrete buffer for the loader's slow path: the trailing 64 KiB window of a
65545-byte file whose metadata region (65530 + 8 bytes) exceeds the window. -/
def slowBuf : List Nat := List.replicate 65528 0 ++ [250, 255, 0, 0, 80, 65, 82, 49]

/-- Store serving `slowBuf` for the window read and `[1, 2]` for the follow-up
prefix read `[7, 9)`. -/
def slowStore : PStore :=
  ⟨65545, fun a b =>
    if a = 9 ∧ b = 65545 then some slowBuf
    else if a = 7 ∧ b = 9 then some [1, 2] else none⟩

/-- Witness for `load_read_trips` at the fast-path and slow-path stores. -/
theorem load_read_trips_witness :
    ((load fastStore "fast.parquet" (some 20) some).2.filter Op.isRead).length ≤ 2
    ∧ (load fastStore "fast.parquet" (some 20) some).2.filter Op.isRead
        = [Op.rangeRead (20 - 20) 20]
    ∧ (load fastStore "fast.parquet" (some 20) some).1
        = decodeResult "fast.parquet" some (fastBuf.drop (20 - (5 + FOOTER_SIZE)))
    ∧ (load slowStore "slow.parquet" (some 65545) some).2.filter Op.isRead
        = [Op.rangeRead (65545 - 65536) 65545,
           Op.rangeRead (65545 - (65530 + FOOTER_SIZE)) (65545 - 65536)]
    ∧ (load slowStore "slow.parquet" (some 65545) some).1
        = decodeResult "slow.parquet" some ([1, 2] ++ slowBuf) := by
  have hslowlen : slowBuf.length = 65536 := by
    unfold slowBuf
    rw [List.length_append, List.length_replicate]
    decide
  have hslowfoot : decodeFooter (slowBuf.drop (65536 - FOOTER_SIZE)) = some 65530 := by
    have hdrop : slowBuf.drop (65536 - FOOTER_SIZE) = [250, 255, 0, 0, 80, 65, 82, 49] :=
      List.drop_left' (List.length_replicate _ _)
    rw [hdrop]
    decide
  have hfast := load_read_trips.2.1 fastStore "fast.parquet" (some 20) some 20 20 5 fastBuf
    rfl (by decide) (by decide) (by decide) (by decide) (by decide) (by decide)
  have hslow := load_read_trips.2.2 slowStore "slow.parquet" (some 65545) some
    65545 65536 65530 slowBuf rfl (by decide) rfl hslowlen hslowfoot (by decide) (by decide)
  exact ⟨load_read_trips.1 fastStore "fast.parquet" (some 20) some,
    hfast.1, hfast.2, hslow.1, hslow.2 [1, 2] rfl⟩

/-! ### Write cache (`src/mito2/src/cache/write_cache.rs`) -/

/-- An object store's contents: an association of paths to byte contents. -/
def Store := List (String × List Nat)

instance : DecidableEq Store := by
  unfold Store
  infer_instance

/-- Path lookup in a store. -/
def storeGet : Store → String → Option (List Nat)
  | [], _ => none
  | (k, v) :: rest, p => if k = p then some v else storeGet rest p

/-- Writing (creating or overwriting) an object at a path. -/
def storePut : Store → String → List Nat → Store
  | [], p, v => [(p, v)]
  | (k, w) :: rest, p, v => if k = p then (p, v) :: rest else (k, w) :: storePut rest p v

/-- The object-store manager: a name-keyed registry of stores. -/
def ObjectStoreManager := List (String × Store)

instance : DecidableEq ObjectStoreManager := by
  unfold ObjectStoreManager
  infer_instance

/-- Embeds `ObjectStoreManager::find`: lookup of a store by name. -/
def findStore : ObjectStoreManager → String → Option Store
  | [], _ => none
  | (k, s) :: rest, name => if k = name then some s else findStore rest name

/-- Writes an object into the named store of the registry. -/
def updateStore : ObjectStoreManager → String → String → List Nat → ObjectStoreManager
  | [], _, _, _ => []
  | (k, s) :: rest, name, path, v =>
    if k = name then (k, storePut s path v) :: rest
    else (k, s) :: updateStore rest name path v

/-- Metadata of one SST file; only the file id matters to `upload`. -/
structure FileMeta where
  file_id : String
deriving DecidableEq, Repr

/-- Embeds `UploadPart`: a group of files destined for one region directory
and an optional target store. -/
structure UploadPart where
  region_dir : String
  file_metas : List FileMeta
  storage : Option String
deriving DecidableEq, Repr

/-- Embeds `Upload`: an ordered list of parts. -/
structure Upload where
  parts : List UploadPart
deriving DecidableEq, Repr

/-- Embeds `WriteCache`: the local store plus the object store manager. -/
structure WriteCache where
  local_store : Store
  object_store_manager : ObjectStoreManager

/-- Errors of `upload`: `ObjectStoreNotFoundSnafu` and transport errors
(`OpenDalSnafu`) carrying the affected path. -/
inductive UploadErr where
  | objectStoreNotFound (name : String)
  | openDal (path : String)
deriving DecidableEq, Repr

/-- Modelled from the spec: the path layout `region_dir/file_id.<ext>` of the
external path-building collaborator `sst_file_path` (`crate::access_layer`,
not part of the analysed sources), treated as an opaque deterministic
function. -/
def sst_file_path (region_dir : String) (file_id : String) : String :=
  region_dir ++ "/" ++ file_id ++ ".parquet"

/-- One transfer task pushed by `upload`: the derived file path and the name
of the (already resolved) remote store. -/
structure TransferHandle where
  path : String
  storage : String
deriving DecidableEq, Repr

/-- The synchronous phase of `upload` (`write_cache.rs` lines 72-111): iterate
the parts; a part without a target store is skipped; resolving an
unregistered store name aborts with `ObjectStoreNotFound` (the transfer
futures collected so far are dropped unexecuted); otherwise one transfer
handle per file is pushed, in part order then file order. -/
def collectHandles (mgr : ObjectStoreManager) : List UploadPart → Except UploadErr (List TransferHandle)
  | [] => .ok []
  | part :: rest =>
    match part.storage with
    | none => collectHandles mgr rest
    | some storage =>
      match findStore mgr storage with
      | none => .error (.objectStoreNotFound storage)
      | some _ =>
        match collectHandles mgr rest with
        | .error e => .error e
        | .ok hs =>
          .ok ((part.file_metas.map fun fm =>
            ⟨sst_file_path part.region_dir fm.file_id, storage⟩) ++ hs)

/-- One transfer task (`write_cache.rs` lines 90-109): open a reader on the
local store (a missing file is a transport error), open a writer on the
resolved remote store, then close the writer. The source constructs the copy
future `futures::io::copy(reader, &mut writer)` on line 104 but never awaits
it, so no bytes are transferred before `writer.close()` commits the remote
object: the committed object is empty. -/
def runHandle (local_store : Store) (mgr : ObjectStoreManager) (h : TransferHandle) :
    Except UploadErr ObjectStoreManager :=
  match storeGet local_store h.path with
  | none => .error (.openDal h.path)
  | some _ => .ok (updateStore mgr h.storage h.path [])

/-- Joint wait on the transfer tasks (`futures::future::try_join_all`,
line 114), linearized sequentially: tasks run in order, the first failure
becomes the call's result. Returns the first error (if any) together with
the manager state reached. -/
def runHandles (local_store : Store) : ObjectStoreManager → List TransferHandle →
    Option UploadErr × ObjectStoreManager
  | mgr, [] => (none, mgr)
  | mgr, h :: rest =>
    match runHandle local_store mgr h with
    | .error e => (some e, mgr)
    | .ok mgr2 => runHandles local_store mgr2 rest

/-- Embeds `WriteCache::upload` (`write_cache.rs` lines 68-117): collect the
transfer handles, then join them. A failure during collection returns before
any transfer has run, leaving every store untouched. Returns the result
(`none` = success) together with the final state of the store registry. -/
def upload (cache : WriteCache) (u : Upload) : Option UploadErr × ObjectStoreManager :=
  match collectHandles cache.object_store_manager u.parts with
  | .error e => (some e, cache.object_store_manager)
  | .ok hs => runHandles cache.local_store cache.object_store_manager hs

/-- C1 (code-bug evidence): on an upload of a single file with content
`[1, 2, 3]` to a registered store, `upload` succeeds, yet the remote store
ends up with an *empty* object at the derived path — not a byte-identical
copy — because the copy future on line 104 of `write_cache.rs` is built but
never awaited, so `writer.close()` commits an object to which no bytes were
ever transferred. The local copy is untouched. -/
theorem upload_commits_empty_objects :
    upload ⟨[("r/f1.parquet", [1, 2, 3])], [("s1", [])]⟩
        ⟨[⟨"r", [⟨"f1"⟩], some "s1"⟩]⟩
      = (none, [("s1", [("r/f1.parquet", [])])])
    ∧ storeGet [("r/f1.parquet", [1, 2, 3])] "r/f1.parquet" = some [1, 2, 3]
    ∧ ([] : List Nat) ≠ [1, 2, 3] := by decide

/-- A part list containing a part whose set store name is unregistered makes
handle collection fail with `ObjectStoreNotFound` naming an unregistered
store that some part targets. -/
theorem collectHandles_not_found (mgr : ObjectStoreManager) (parts : List UploadPart)
    (h : ∃ p ∈ parts, ∃ s, p.storage = some s ∧ findStore mgr s = none) :
    ∃ s, collectHandles mgr parts = .error (.objectStoreNotFound s)
      ∧ findStore mgr s = none ∧ ∃ p ∈ parts, p.storage = some s := by
  induction parts with
  | nil =>
    obtain ⟨p, hp, -⟩ := h
    cases hp
  | cons part rest ih =>
    obtain ⟨p, hp, s0, hs0, hf0⟩ := h
    cases hps : part.storage with
    | none =>
      have hrest : ∃ p ∈ rest, ∃ s, p.storage = some s ∧ findStore mgr s = none := by
        rcases List.mem_cons.mp hp with rfl | hmem
        · rw [hps] at hs0; cases hs0
        · exact ⟨p, hmem, s0, hs0, hf0⟩
      obtain ⟨s, hcol, hfind, p2, hp2, hps2⟩ := ih hrest
      exact ⟨s, by simp [collectHandles, hps, hcol], hfind, p2,
        List.mem_cons_of_mem _ hp2, hps2⟩
    | some s1 =>
      cases hfs : findStore mgr s1 with
      | none =>
        exact ⟨s1, by simp [collectHandles, hps, hfs], hfs, part,
          List.mem_cons_self _ _, hps⟩
      | some st =>
        have hrest : ∃ p ∈ rest, ∃ s, p.storage = some s ∧ findStore mgr s = none := by
          rcases List.mem_cons.mp hp with rfl | hmem
          · rw [hps] at hs0
            injection hs0 with h1
            subst h1
            rw [hfs] at hf0
            cases hf0
          · exact ⟨p, hmem, s0, hs0, hf0⟩
        obtain ⟨s, hcol, hfind, p2, hp2, hps2⟩ := ih hrest
        exact ⟨s, by simp [collectHandles, hps, hfs, hcol], hfind, p2,
          List.mem_cons_of_mem _ hp2, hps2⟩

/-- C7: an `Upload` containing a part whose target store name is set but not
registered makes `upload` fail with `ObjectStoreNotFound` naming an
unregistered store targeted by some part, and the failure happens during the
synchronous collection phase, before any transfer runs: every store is left
exactly as it was, so no bytes are copied for that part. -/
theorem upload_store_not_found (cache : WriteCache) (u : Upload)
    (h : ∃ p ∈ u.parts, ∃ s, p.storage = some s
          ∧ findStore cache.object_store_manager s = none) :
    ∃ s, upload cache u = (some (.objectStoreNotFound s), cache.object_store_manager)
      ∧ findStore cache.object_store_manager s = none
      ∧ ∃ p ∈ u.parts, p.storage = some s := by
  obtain ⟨s, hcol, hfind, hex⟩ := collectHandles_not_found _ _ h
  exact ⟨s, by simp [upload, hcol], hfind, hex⟩

/-- Witness for `upload_store_not_found`: one part targeting the unregistered
name "s2" against a registry holding only "s1". -/
theorem upload_store_not_found_witness :
    (∃ p ∈ (Upload.mk [⟨"r", [⟨"f1"⟩], some "s2"⟩]).parts, ∃ s, p.storage = some s
        ∧ findStore [("s1", [])] s = none)
    ∧ ∃ s, upload ⟨[], [("s1", [])]⟩ ⟨[⟨"r", [⟨"f1"⟩], some "s2"⟩]⟩
          = (some (.objectStoreNotFound s), [("s1", [])])
        ∧ findStore [("s1", [])] s = none
        ∧ ∃ p ∈ (Upload.mk [⟨"r", [⟨"f1"⟩], some "s2"⟩]).parts, p.storage = some s :=
  ⟨⟨⟨"r", [⟨"f1"⟩], some "s2"⟩, List.mem_cons_self _ _, "s2", rfl, rfl⟩,
   upload_store_not_found ⟨[], [("s1", [])]⟩ ⟨[⟨"r", [⟨"f1"⟩], some "s2"⟩]⟩
     ⟨⟨"r", [⟨"f1"⟩], some "s2"⟩, List.mem_cons_self _ _, "s2", rfl, rfl⟩⟩

/-- Parts without a target store contribute no transfer handles. -/
theorem collectHandles_filter (mgr : ObjectStoreManager) (parts : List UploadPart) :
    collectHandles mgr (parts.filter fun p => p.storage.isSome)
      = collectHandles mgr parts := by
  induction parts with
  | nil => rfl
  | cons part rest ih =>
    cases hps : part.storage with
    | none => simp [List.filter_cons, hps, collectHandles, ih]
    | some s => simp [List.filter_cons, hps, collectHandles, ih]

/-- C8: a part whose target store is `None` is skipped entirely by `upload`:
the call behaves exactly as if the part were absent (no local read, no
remote operation, no error for it), and an `Upload` whose only part has no
target store performs zero operations and succeeds with every store
unchanged. -/
theorem upload_skips_storeless (cache : WriteCache) (u : Upload) (p : UploadPart)
    (hp : p.storage = none) :
    upload cache u = upload cache ⟨u.parts.filter fun q => q.storage.isSome⟩
    ∧ upload cache ⟨[p]⟩ = (none, cache.object_store_manager) := by
  constructor
  · unfold upload
    dsimp only
    rw [collectHandles_filter]
  · simp [upload, collectHandles, hp, runHandles]

/-- Witness for `upload_skips_storeless`: a single store-less part. -/
theorem upload_skips_storeless_witness :
    (UploadPart.mk "r" [⟨"f1"⟩] none).storage = none
    ∧ upload ⟨[], [("s1", [])]⟩ ⟨[⟨"r", [⟨"f1"⟩], none⟩]⟩
        = upload ⟨[], [("s1", [])]⟩
            ⟨[(⟨"r", [⟨"f1"⟩], none⟩ : UploadPart)].filter fun q => q.storage.isSome⟩
    ∧ upload ⟨[], [("s1", [])]⟩ ⟨[⟨"r", [⟨"f1"⟩], none⟩]⟩ = (none, [("s1", [])]) :=
  ⟨rfl,
   (upload_skips_storeless ⟨[], [("s1", [])]⟩ ⟨[⟨"r", [⟨"f1"⟩], none⟩]⟩
     ⟨"r", [⟨"f1"⟩], none⟩ rfl).1,
   (upload_skips_storeless ⟨[], [("s1", [])]⟩ ⟨[⟨"r", [⟨"f1"⟩], none⟩]⟩
     ⟨"r", [⟨"f1"⟩], none⟩ rfl).2⟩

/-! ### Range fetcher (`src/mito2/src/sst/parquet/helper.rs`, `fetch_byte_ranges`) -/

/-- The object store as the fetcher sees it: a blocking-capability flag and
object contents by path. -/
structure FetchStore where
  blocking : Bool
  data : String → Option (List Nat)

/-- The bytes of range `r` within `bytes`. -/
def rangeBytes (bytes : List Nat) (r : Rg) : List Nat :=
  (bytes.drop r.start).take (r.stop - r.start)

/-- A single range read `read_with(path).range(start..stop)`: the slice of the
object's bytes, or a transport error (`none`) if the object is missing or
the range is invalid. -/
def readRange (store : FetchStore) (path : String) (r : Rg) : Option (List Nat) :=
  match store.data path with
  | none => none
  | some bytes =>
    if r.start ≤ r.stop ∧ r.stop ≤ bytes.length then some (rangeBytes bytes r) else none

/-- Embeds `fetch_ranges_seq` (`helper.rs` lines 107-130): read each range in
input order, one at a time, collecting with fail-fast semantics (the
`maybe_spawn_blocking` offloading is runtime plumbing with no effect on the
result). -/
def fetch_ranges_seq (path : String) (store : FetchStore) : List Rg → Option (List (List Nat))
  | [] => some []
  | r :: rest =>
    match readRange store path r with
    | none => none
    | some b =>
      match fetch_ranges_seq path store rest with
      | none => none
      | some bs => some (b :: bs)

/-- Embeds `fetch_ranges_concurrent` (`helper.rs` lines 133-149): issue one
read per range and join them all (`try_join_all` returns the results in the
order the futures were given, failing if any read fails). -/
def joinAll : List (Option (List Nat)) → Option (List (List Nat))
  | [] => some []
  | none :: _ => none
  | some b :: rest =>
    match joinAll rest with
    | none => none
    | some bs => some (b :: bs)

/-- The concurrent path: spawn all reads, then join. -/
def fetch_ranges_concurrent (path : String) (store : FetchStore) (ranges : List Rg) :
    Option (List (List Nat)) :=
  joinAll (ranges.map fun r => readRange store path r)

/-- Embeds `fetch_byte_ranges` (`helper.rs` lines 94-104): blocking-capable
backends use the sequential path, others the concurrent path. -/
def fetch_byte_ranges (path : String) (store : FetchStore) (ranges : List Rg) :
    Option (List (List Nat)) :=
  if store.blocking then fetch_ranges_seq path store ranges
  else fetch_ranges_concurrent path store ranges

theorem fetch_ranges_seq_spec (path : String) (store : FetchStore) :
    ∀ (ranges : List Rg) (bufs : List (List Nat)),
      fetch_ranges_seq path store ranges = some bufs →
        bufs.length = ranges.length
        ∧ ∀ i (hi : i < bufs.length) (hr : i < ranges.length),
            some (bufs.get ⟨i, hi⟩) = readRange store path (ranges.get ⟨i, hr⟩) := by
  intro ranges
  induction ranges with
  | nil =>
    intro bufs h
    cases hb : bufs with
    | nil => exact ⟨rfl, fun i hi hr => absurd hr (by simp)⟩
    | cons b bs =>
      subst hb
      simp [fetch_ranges_seq] at h
  | cons r rest ih =>
    intro bufs h
    revert h
    simp only [fetch_ranges_seq]
    cases hread : readRange store path r with
    | none => intro h; cases h
    | some b =>
      cases hrest : fetch_ranges_seq path store rest with
      | none => intro h; cases h
      | some bs =>
        intro h
        injection h with h
        subst h
        obtain ⟨hlen, hget⟩ := ih bs hrest
        refine ⟨by simp [hlen], ?_⟩
        intro i hi hr
        match i with
        | 0 => simpa using hread.symm
        | i + 1 =>
          exact hget i (by simpa using hi) (by simpa using hr)

theorem joinAll_spec :
    ∀ (opts : List (Option (List Nat))) (bufs : List (List Nat)),
      joinAll opts = some bufs →
        bufs.length = opts.length
        ∧ ∀ i (hi : i < bufs.length) (hr : i < opts.length),
            some (bufs.get ⟨i, hi⟩) = opts.get ⟨i, hr⟩ := by
  intro opts
  induction opts with
  | nil =>
    intro bufs h
    injection h with h
    subst h
    exact ⟨rfl, fun i hi hr => absurd hr (by simp)⟩
  | cons o rest ih =>
    intro bufs h
    revert h
    cases o with
    | none => intro h; cases h
    | some b =>
      simp only [joinAll]
      cases hrest : joinAll rest with
      | none => intro h; cases h
      | some bs =>
        intro h
        injection h with h
        subst h
        obtain ⟨hlen, hget⟩ := ih bs hrest
        refine ⟨by simp [hlen], ?_⟩
        intro i hi hr
        match i with
        | 0 => rfl
        | i + 1 =>
          exact hget i (by simpa using hi) (by simpa using hr)

/-- C9: a successful `fetch_byte_ranges` returns exactly one buffer per input
range, in input order, the i-th buffer being the bytes of the i-th requested
range — on the blocking-sequential path and on the concurrent path alike. -/
theorem fetch_byte_ranges_spec (path : String) (store : FetchStore) (ranges : List Rg)
    (bufs : List (List Nat)) (data : List Nat)
    (hfetch : fetch_byte_ranges path store ranges = some bufs)
    (hdata : store.data path = some data) :
    bufs.length = ranges.length
    ∧ ∀ i (hi : i < bufs.length) (hr : i < ranges.length),
        bufs.get ⟨i, hi⟩ = rangeBytes data (ranges.get ⟨i, hr⟩) := by
  have hcore : bufs.length = ranges.length
      ∧ ∀ i (hi : i < bufs.length) (hr : i < ranges.length),
          some (bufs.get ⟨i, hi⟩) = readRange store path (ranges.get ⟨i, hr⟩) := by
    revert hfetch
    unfold fetch_byte_ranges
    split
    · exact fun hfetch => fetch_ranges_seq_spec path store ranges bufs hfetch
    · intro hfetch
      obtain ⟨hlen, hget⟩ := joinAll_spec _ bufs hfetch
      refine ⟨by simpa using hlen, ?_⟩
      intro i hi hr
      have hr2 : i < (List.map (fun r => readRange store path r) ranges).length := by
        rw [List.length_map]
        exact hr
      have := hget i hi hr2
      simpa [List.get_eq_getElem, List.getElem_map] using this
  obtain ⟨hlen, hget⟩ := hcore
  refine ⟨hlen, ?_⟩
  intro i hi hr
  have hsome := hget i hi hr
  simp only [readRange, hdata] at hsome
  by_cases hc : (ranges.get ⟨i, hr⟩).start ≤ (ranges.get ⟨i, hr⟩).stop
      ∧ (ranges.get ⟨i, hr⟩).stop ≤ data.length
  · rw [if_pos hc] at hsome
    exact Option.some.inj hsome
  · rw [if_neg hc] at hsome
    cases hsome

/-- Concrete non-blocking store for the fetcher witness. -/
def fetchDemoStore : FetchStore :=
  ⟨false, fun p => if p = "f.parquet" then some [10, 11, 12, 13, 14] else none⟩

/-- Witness for `fetch_byte_ranges_spec`: two ranges fetched concurrently from
a five-byte object. -/
theorem fetch_byte_ranges_spec_witness :
    ([[11, 12], [10, 11]] : List (List Nat)).length = ([⟨1, 3⟩, ⟨0, 2⟩] : List Rg).length
    ∧ ([[11, 12], [10, 11]] : List (List Nat)).get ⟨0, by decide⟩
        = rangeBytes [10, 11, 12, 13, 14] (([⟨1, 3⟩, ⟨0, 2⟩] : List Rg).get ⟨0, by decide⟩)
    ∧ ([[11, 12], [10, 11]] : List (List Nat)).get ⟨1, by decide⟩
        = rangeBytes [10, 11, 12, 13, 14] (([⟨1, 3⟩, ⟨0, 2⟩] : List Rg).get ⟨1, by decide⟩) :=
  ⟨(fetch_byte_ranges_spec "f.parquet" fetchDemoStore [⟨1, 3⟩, ⟨0, 2⟩]
      [[11, 12], [10, 11]] [10, 11, 12, 13, 14] (by decide) rfl).1,
   (fetch_byte_ranges_spec "f.parquet" fetchDemoStore [⟨1, 3⟩, ⟨0, 2⟩]
      [[11, 12], [10, 11]] [10, 11, 12, 13, 14] (by decide) rfl).2 0 (by decide) (by decide),
   (fetch_byte_ranges_spec "f.parquet" fetchDemoStore [⟨1, 3⟩, ⟨0, 2⟩]
      [[11, 12], [10, 11]] [10, 11, 12, 13, 14] (by decide) rfl).2 1 (by decide) (by decide)⟩
